import Mathlib

/-!
# Playwright: configuration lookup, roles-path resolution and playbook scaffolding

A shallow embedding of `main.go` and `commands/command.go`.

* Go strings are modelled as lists of characters (`GoString`); the text handled by the
  program is taken to be valid UTF-8, so that a byte-level separator search for the ASCII
  separators `/`, `=`, `:` and the rune-level `strings.TrimSpace` agree with their
  character-level counterparts.
* The operating system is an explicit `World`: the environment, the outcome of `os.Stat`
  and the outcome of `os.Open` followed by a `bufio.Scanner` line scan.
* A Go function that may raise a run-time panic returns an `Outcome`.
* `fmt.Println` output and the warning of `logger.LogWarning` are not part of the model.
-/

set_option linter.dupNamespace false

namespace Playwright

/-- Go `string`, as the list of its characters. -/
abbrev GoString := List Char

/-- Result of running a piece of Go code: it returns a value, or it raises a run-time
panic (index or slice bound out of range). -/
inductive Outcome (α : Type) where
  | returned (a : α)
  | panicked
  deriving DecidableEq, Repr

/-- Go `(string, error)` result: the error is `none` for `nil`, otherwise its message. -/
abbrev StrErr := GoString × Option GoString

/-! ## The parts of the Go standard library that the program calls -/

/-- Go index expression `a[i]` on a slice or string: panics when `i` is out of range. -/
def index {α : Type} (a : List α) (i : Int) : Outcome α :=
  if 0 ≤ i then
    match a.get? i.toNat with
    | some x => .returned x
    | none => .panicked
  else .panicked

/-- Go slice expression `a[:hi]`: panics when `hi` is negative or exceeds the length
(the capacity equals the length for the slices sliced here). -/
def sliceTo {α : Type} (a : List α) (hi : Int) : Outcome (List α) :=
  if 0 ≤ hi ∧ hi ≤ (a.length : Int) then .returned (a.take hi.toNat) else .panicked

/-- Go `strings.Split(s, sep)` for a one-character separator: the pieces of `s` between
the occurrences of `sep`; never empty, `Split "" sep = [""]`. -/
def Split : GoString → Char → List GoString
  | [], _ => [[]]
  | x :: xs, sep =>
    if x = sep then [] :: Split xs sep
    else ((x :: (Split xs sep).headD []) :: (Split xs sep).tail)

/-- Go `strings.SplitAfter(s, sep)` for a one-character separator: as `Split`, but every
piece keeps the separator that ends it. -/
def SplitAfter : GoString → Char → List GoString
  | [], _ => [[]]
  | x :: xs, sep =>
    if x = sep then [x] :: SplitAfter xs sep
    else ((x :: (SplitAfter xs sep).headD []) :: (SplitAfter xs sep).tail)

/-- Go `strings.Join(parts, "")`. -/
def Join (parts : List GoString) : GoString :=
  parts.foldr (fun p acc => p ++ acc) []

/-- Go `strings.Contains(s, substr)`. -/
def Contains : GoString → GoString → Bool
  | [], substr => substr.isEmpty
  | x :: xs, substr => substr.isPrefixOf (x :: xs) || Contains xs substr

/-- Go `unicode.IsSpace`: the Unicode White_Space property. -/
def isSpace (c : Char) : Bool :=
  let n := c.toNat
  (0x09 ≤ n && n ≤ 0x0D) || n == 0x20 || n == 0x85 || n == 0xA0 || n == 0x1680 ||
  (0x2000 ≤ n && n ≤ 0x200A) || n == 0x2028 || n == 0x2029 || n == 0x202F ||
  n == 0x205F || n == 0x3000

/-- Go `strings.TrimSpace`: drops leading and trailing white space. -/
def TrimSpace (s : GoString) : GoString :=
  ((s.dropWhile isSpace).reverse.dropWhile isSpace).reverse

/-! ## The operating system -/

/-- What `os.Open` followed by a `bufio.Scanner` loop yields for a file: the lines that
`scanner.Text()` returns in order, and whether `scanner.Err()` is non-nil once `Scan`
has returned false. -/
structure FileScan where
  lines : List GoString
  scanErr : Bool
  deriving DecidableEq, Repr

/-- The environment the program runs in. -/
structure World where
  /-- `os.Getenv(name)` -/
  getenv : GoString → GoString
  /-- whether `os.Stat(path)` returns a nil error -/
  stat : GoString → Bool
  /-- `os.Open(path)`: `none` when it returns an error -/
  openFile : GoString → Option FileScan

/-- A request made to the file system by the scaffolding code. -/
inductive FsRequest where
  | MkdirAll (path : GoString) (perm : Nat)
  | Create (path : GoString)
  deriving DecidableEq, Repr

/-- The path a request is about. -/
def FsRequest.path : FsRequest → GoString
  | .MkdirAll p _ => p
  | .Create p => p

/-! ## `main.go` -/

namespace main

/-- `concat` of `main.go`: writes both strings to a buffer and returns its content. -/
def concat (pfx suffix : GoString) : GoString :=
  pfx ++ suffix

/-- `ansibleConfigPath` of `main.go`. -/
def ansibleConfigPath (w : World) : StrErr :=
  let envPath := w.getenv "ANSIBLE_CONFIG".toList
  if envPath ≠ [] then (envPath, none)
  else if w.stat "./ansible.cfg".toList then ("./ansible.cfg".toList, none)
  else if w.stat "./.ansible.cfg".toList then ("./.ansible.cfg".toList, none)
  else if w.stat "/etc/ansible/ansible.cfg".toList then ("/etc/ansible/ansible.cfg".toList, none)
  else ([], some "Ansible config not found".toList)

/-- The `for scanner.Scan()` loop of `readRolesPath` and the code after it. -/
def readRolesPathScan (pfx : GoString) (scanErr : Bool) : List GoString → Outcome StrErr
  | [] =>
    if scanErr then .returned ([], some "Cannot read data from Ansible configuration file".toList)
    else .returned (concat pfx "roles".toList, none)
  | text :: rest =>
    if Contains text "roles_path".toList then
      match index (Split text '=') 1 with
      | .panicked => .panicked
      | .returned v => .returned (concat pfx (TrimSpace v), none)
    else readRolesPathScan pfx scanErr rest

/-- `readRolesPath` of `main.go`. -/
def readRolesPath (w : World) (path : GoString) : Outcome StrErr :=
  match w.openFile path with
  | none => .returned ([], some "Cannot open Ansible configuration file".toList)
  | some file =>
    let parts := SplitAfter path '/'
    match sliceTo parts ((parts.length : Int) - 1) with
    | .panicked => .panicked
    | .returned ps =>
      let pfx := Join ps
      readRolesPathScan pfx file.scanErr file.lines

/-- The `folders` array of `createPlaybookStructure`. -/
def folders : List GoString :=
  ["tasks".toList, "handlers".toList, "templates".toList, "files".toList, "vars".toList,
   "defaults".toList, "meta".toList]

/-- The `for _, folder := range folders` loop of `createPlaybookStructure`. -/
def createFolders (playbookPath : GoString) : List GoString → List FsRequest
  | [] => []
  | folder :: rest =>
    let folderPath := concat playbookPath folder
    if folder ≠ "files".toList ∧ folder ≠ "templates".toList then
      .MkdirAll folderPath 0o755 :: .Create (concat folderPath "/main.yml".toList)
        :: createFolders playbookPath rest
    else
      .MkdirAll folderPath 0o755 :: createFolders playbookPath rest

/-- The playbook root computed by the first half of `createPlaybookStructure`. -/
def playbookRoot (rolesPath name : GoString) : Outcome GoString :=
  match index rolesPath ((rolesPath.length : Int) - 1) with
  | .panicked => .panicked
  | .returned c =>
    let rolesPath := if c ≠ '/' then concat rolesPath "/".toList else rolesPath
    let playbookPath := concat rolesPath name
    match index playbookPath ((playbookPath.length : Int) - 1) with
    | .panicked => .panicked
    | .returned c2 =>
      .returned (if c2 ≠ '/' then concat playbookPath "/".toList else playbookPath)

/-- `createPlaybookStructure` of `main.go`, as the ordered list of the file-system
requests it issues (their results are ignored by the code). -/
def createPlaybookStructure (rolesPath name : GoString) : Outcome (List FsRequest) :=
  match playbookRoot rolesPath name with
  | .panicked => .panicked
  | .returned playbookPath => .returned (createFolders playbookPath folders)

/-- `main` of `main.go`: both errors are printed and then ignored. -/
def main (w : World) : Outcome (List FsRequest) :=
  let path := (ansibleConfigPath w).1
  match readRolesPath w path with
  | .panicked => .panicked
  | .returned r => createPlaybookStructure r.1 "my-playbook".toList

end main

/-! ## `commands/command.go` -/

namespace commands

/-- Modelled from the spec: `utils.Concat` (package `utils` is not among the sources),
"plain string concatenation, not path-aware joining". -/
def Concat (pfx suffix : GoString) : GoString :=
  pfx ++ suffix

/-- `Command` of `commands/command.go`. -/
structure Command where
  PlaybookName : GoString
  WithHandlers : Bool
  WithTemplates : Bool
  WithFiles : Bool
  WithVars : Bool
  WithDefaults : Bool
  WithMeta : Bool
  All : Bool

def ANSIBLE_CONFIG_VAR : GoString := "ANSIBLE_CONFIG".toList
def ANSIBLE_CONFIG : GoString := "./ansible.cfg".toList
def ANSIBLE_CONFIG_DOT : GoString := "./.ansible.cfg".toList
def ANSIBLE_CONFIG_OS : GoString := "/etc/ansible/ansible.cfg".toList

/-- `Command.SelectFolders`. -/
def SelectFolders (command : Command) : List GoString :=
  let result := ["tasks".toList]
  let result := if command.WithHandlers then result ++ ["handlers".toList] else result
  let result := if command.WithTemplates then result ++ ["templates".toList] else result
  let result := if command.WithFiles then result ++ ["files".toList] else result
  let result := if command.WithVars then result ++ ["vars".toList] else result
  let result := if command.WithDefaults then result ++ ["defaults".toList] else result
  let result := if command.WithMeta then result ++ ["meta".toList] else result
  result

/-- `Command.ansibleConfigPath`. -/
def ansibleConfigPath (_command : Command) (w : World) : StrErr :=
  let envPath := w.getenv ANSIBLE_CONFIG_VAR
  if envPath ≠ [] then (envPath, none)
  else if w.stat ANSIBLE_CONFIG then (ANSIBLE_CONFIG, none)
  else if w.stat ANSIBLE_CONFIG_DOT then (ANSIBLE_CONFIG_DOT, none)
  else if w.stat ANSIBLE_CONFIG_OS then (ANSIBLE_CONFIG_OS, none)
  else ([], some "Ansible config not found".toList)

/-- `availableRolesPath`. -/
def availableRolesPath (rolesPaths : GoString) : Outcome (List GoString) :=
  match index (Split rolesPaths '=') 1 with
  | .panicked => .panicked
  | .returned v =>
    let options := TrimSpace v
    if options.length = 0 then .returned []
    else .returned (Split options ':')

/-- The `for scanner.Scan()` loop of `Command.ReadRolesPath` and the code after it. -/
def ReadRolesPathScan (pfx defaultPath : GoString) (scanErr : Bool) :
    List GoString → Outcome StrErr
  | [] =>
    if scanErr then .returned ([], some "Cannot read data from Ansible configuration file".toList)
    else .returned (defaultPath, none)
  | option :: rest =>
    if Contains option "roles_path".toList then
      match availableRolesPath option with
      | .panicked => .panicked
      | .returned path =>
        if path.length = 0 then .returned (defaultPath, none)
        else
          match index path 0 with
          | .panicked => .panicked
          | .returned p0 => .returned (Concat pfx p0, none)
    else ReadRolesPathScan pfx defaultPath scanErr rest

/-- The part of `Command.ReadRolesPath` that follows a successful `os.Open(path)`. -/
def ReadRolesPathFrom (path : GoString) (file : FileScan) : Outcome StrErr :=
  let parts := SplitAfter path '/'
  match sliceTo parts ((parts.length : Int) - 1) with
  | .panicked => .panicked
  | .returned ps =>
    let pfx := Join ps
    let defaultPath := Concat pfx "roles".toList
    ReadRolesPathScan pfx defaultPath file.scanErr file.lines

/-- `Command.ReadRolesPath`. -/
def ReadRolesPath (command : Command) (w : World) : Outcome StrErr :=
  match ansibleConfigPath command w with
  | (_, some _) => .returned ([], some "Cannot find Ansible configuration file".toList)
  | (path, none) =>
    match w.openFile path with
    | none => .returned ([], some "Cannot open Ansible configuration file".toList)
    | some file => ReadRolesPathFrom path file

end commands

/-! ## Notions used to state the properties -/

/-- What the configuration lookup promises about its result `r`, given the value `e` of
`ANSIBLE_CONFIG` and the file-existence check `exist`: a non-empty `e` is returned as it
is; otherwise the first existing one of the three candidate files, in their order; and an
error, with the empty path, exactly when `e` is empty and none of the three exists. -/
def LocatesConfig (e : GoString) (exist : GoString → Bool) (r : StrErr) : Prop :=
  (e ≠ [] → r = (e, none)) ∧
  (e = [] → exist "./ansible.cfg".toList = true → r = ("./ansible.cfg".toList, none)) ∧
  (e = [] → exist "./ansible.cfg".toList = false → exist "./.ansible.cfg".toList = true →
    r = ("./.ansible.cfg".toList, none)) ∧
  (e = [] → exist "./ansible.cfg".toList = false → exist "./.ansible.cfg".toList = false →
    exist "/etc/ansible/ansible.cfg".toList = true →
    r = ("/etc/ansible/ansible.cfg".toList, none)) ∧
  (r.2 ≠ none ↔ (e = [] ∧ exist "./ansible.cfg".toList = false ∧
    exist "./.ansible.cfg".toList = false ∧ exist "/etc/ansible/ansible.cfg".toList = false)) ∧
  (r.2 ≠ none → r.1 = [])

/-- The value `p1:p2:...` of a `roles_path` line with first entry `p` and further
entries `ps`. -/
def colonList : GoString → List GoString → GoString
  | p, [] => p
  | p, q :: qs => p ++ ':' :: colonList q qs

/-- The seven folder names, in their fixed order. -/
def sevenFolders : List GoString :=
  ["tasks".toList, "handlers".toList, "templates".toList, "files".toList, "vars".toList,
   "defaults".toList, "meta".toList]

/-- Whether a folder name is selected by a command: `tasks` always, each other name by
its flag. -/
def keeps (command : commands.Command) (folder : GoString) : Bool :=
  folder == "tasks".toList ||
  (folder == "handlers".toList && command.WithHandlers) ||
  (folder == "templates".toList && command.WithTemplates) ||
  (folder == "files".toList && command.WithFiles) ||
  (folder == "vars".toList && command.WithVars) ||
  (folder == "defaults".toList && command.WithDefaults) ||
  (folder == "meta".toList && command.WithMeta)

/-- The number of `With*` flags that are set. -/
def flagCount (command : commands.Command) : Nat :=
  [command.WithHandlers, command.WithTemplates, command.WithFiles, command.WithVars,
   command.WithDefaults, command.WithMeta].count true

/-- The playbook root as the specification words it: `rolesPath` with a `/` appended
when it does not end with one, then the name, then again a `/` when that does not end
with one. -/
def normalisedRoot (rolesPath name : GoString) : GoString :=
  let r := if rolesPath.getLast? = some '/' then rolesPath else rolesPath ++ "/".toList
  if (r ++ name).getLast? = some '/' then r ++ name else r ++ name ++ "/".toList

/-- The directories requested by a list of requests, each with its permission bits, in
order. -/
def mkdirRequests (reqs : List FsRequest) : List (GoString × Nat) :=
  reqs.filterMap fun r =>
    match r with
    | .MkdirAll p perm => some (p, perm)
    | .Create _ => none

/-- The files requested by a list of requests, in order. -/
def createRequests (reqs : List FsRequest) : List GoString :=
  reqs.filterMap fun r =>
    match r with
    | .MkdirAll _ _ => none
    | .Create p => some p

/-- A world in which `ANSIBLE_CONFIG` is `/tmp/custom.cfg` and every file exists. -/
def worldWithEnv : World where
  getenv := fun name => if name = "ANSIBLE_CONFIG".toList then "/tmp/custom.cfg".toList else []
  stat := fun _ => true
  openFile := fun _ => some ⟨[], false⟩

/-- A world with an empty environment in which only the given file exists, with the
given lines. -/
def worldWithFile (path : GoString) (lines : List GoString) : World where
  getenv := fun _ => []
  stat := fun p => p == path
  openFile := fun p => if p = path then some ⟨lines, false⟩ else none

/-- A world with an empty environment and no file at all. -/
def emptyWorld : World where
  getenv := fun _ => []
  stat := fun _ => false
  openFile := fun _ => none

/-- A command with no flag set. -/
def plainCommand : commands.Command :=
  ⟨"demo".toList, false, false, false, false, false, false, false⟩

/-! ## Facts about the library functions -/

theorem index_zero_cons {α : Type} (x : α) (xs : List α) : index (x :: xs) 0 = .returned x := by
  simp [index]

theorem index_one_cons {α : Type} (x y : α) (ys : List α) :
    index (x :: y :: ys) 1 = .returned y := by
  simp [index]

theorem index_one_singleton {α : Type} (x : α) : index [x] 1 = .panicked := by
  simp [index]

theorem index_last {α : Type} (l : List α) (x : α) :
    index (l ++ [x]) (((l ++ [x]).length : Int) - 1) = .returned x := by
  have h : (((l ++ [x]).length : Int) - 1) = (l.length : Int) := by
    simp
  rw [h]
  simp [index]

theorem Split_ne_nil (s : GoString) (c : Char) : Split s c ≠ [] := by
  cases s with
  | nil => simp [Split]
  | cons x xs =>
    simp only [Split]
    split <;> simp

theorem Split_of_not_mem (s : GoString) (c : Char) (h : c ∉ s) : Split s c = [s] := by
  induction s with
  | nil => rfl
  | cons x xs ih =>
    have hx : x ≠ c := fun e => h (by simp [e])
    have hxs : c ∉ xs := fun e => h (by simp [e])
    simp [Split, hx, ih hxs]

theorem Split_append_sep (a b : GoString) (c : Char) (h : c ∉ a) :
    Split (a ++ c :: b) c = a :: Split b c := by
  induction a with
  | nil => simp [Split]
  | cons x xs ih =>
    have hx : x ≠ c := fun e => h (by simp [e])
    have hxs : c ∉ xs := fun e => h (by simp [e])
    simp [Split, hx, ih hxs]

theorem SplitAfter_shape (s : GoString) (c : Char) :
    ∃ init last, SplitAfter s c = init ++ [last] ∧ c ∉ last ∧
      (∀ x ∈ init, x.getLast? = some c) ∧ Join init ++ last = s := by
  induction s with
  | nil => exact ⟨[], [], by simp [SplitAfter, Join]⟩
  | cons x xs ih =>
    obtain ⟨init, last, hL, hlast, hinit, hjoin⟩ := ih
    by_cases hx : x = c
    · refine ⟨[x] :: init, last, ?_, hlast, ?_, ?_⟩
      · simp [SplitAfter, hx, hL]
      · intro y hy
        rcases List.mem_cons.1 hy with rfl | hy
        · simp [hx]
        · exact hinit y hy
      · simp [Join, ← hjoin]
    · cases init with
      | nil =>
        refine ⟨[], x :: last, ?_, ?_, ?_, ?_⟩
        · simp [SplitAfter, hx, hL]
        · simp [hlast, Ne.symm hx]
        · simp
        · simpa [Join] using hjoin
      | cons h t =>
        refine ⟨(x :: h) :: t, last, ?_, hlast, ?_, ?_⟩
        · simp [SplitAfter, hx, hL]
        · intro y hy
          rcases List.mem_cons.1 hy with rfl | hy
          · have hh := hinit h (by simp)
            cases h with
            | nil => simp at hh
            | cons h0 hs => simpa [List.getLast?_cons_cons] using hh
          · exact hinit y (by simp [hy])
        · simp [Join, ← hjoin]

theorem Join_ends_with (init : List GoString) (c : Char)
    (h : ∀ x ∈ init, x.getLast? = some c) : Join init = [] ∨ (Join init).getLast? = some c := by
  induction init with
  | nil => left; rfl
  | cons x xs ih =>
    right
    have e : Join (x :: xs) = x ++ Join xs := rfl
    rw [e]
    rcases ih (fun y hy => h y (by simp [hy])) with h0 | h1
    · rw [h0, List.append_nil]
      exact h x (by simp)
    · rw [List.getLast?_append, h1]
      rfl

/-- A string splits in only one way into a part that is empty or ends with `c` and a
rest that is free of `c`. -/
theorem dir_unique (c : Char) (d f d2 f2 : GoString) (h : d ++ f = d2 ++ f2)
    (hf : c ∉ f) (hf2 : c ∉ f2) (hd : d = [] ∨ d.getLast? = some c)
    (hd2 : d2 = [] ∨ d2.getLast? = some c) : d = d2 := by
  have key : ∀ (u v a : GoString), c ∉ v → (u ++ a = [] ∨ (u ++ a).getLast? = some c) →
      v = a ++ f2 ∨ v = a ++ f → a = [] := by
    intro u v a hv hua hva
    by_contra hne
    have hca : c ∈ a := by
      have hl : (u ++ a).getLast? = some c := by
        rcases hua with h0 | h1
        · exact absurd (List.append_eq_nil.1 h0).2 hne
        · exact h1
      rw [List.getLast?_append_of_ne_nil u hne] at hl
      exact List.mem_of_getLast?_eq_some hl
    rcases hva with e | e <;> exact hv (by rw [e]; simp [hca])
  rcases List.append_eq_append_iff.1 h with ⟨a, h1, h2⟩ | ⟨a, h1, h2⟩
  · have ha := key d f a hf (h1 ▸ hd2) (Or.inl h2)
    rw [h1, ha, List.append_nil]
  · have ha := key d2 f2 a hf2 (h1 ▸ hd) (Or.inr h2)
    rw [h1, ha, List.append_nil]

/-- The slice `parts[:len(parts)-1]` of `strings.SplitAfter(path, "/")` is in range, and
joining it gives the longest part of `path` that ends with `/`. -/
theorem dir_of_path (path d f : GoString) (hp : path = d ++ f) (hf : '/' ∉ f)
    (hd : d = [] ∨ d.getLast? = some '/') :
    ∃ ps, sliceTo (SplitAfter path '/') (((SplitAfter path '/').length : Int) - 1)
        = .returned ps ∧ Join ps = d := by
  obtain ⟨init, last, hL, hlast, hinit, hjoin⟩ := SplitAfter_shape path '/'
  refine ⟨init, ?_, ?_⟩
  · rw [hL]
    have hlen : (((init ++ [last]).length : Int) - 1) = (init.length : Int) := by simp
    rw [hlen]
    simp [sliceTo]
  · exact dir_unique '/' (Join init) last d f (hjoin.trans hp) hlast hf
      (Join_ends_with init '/' hinit) hd

theorem sliceTo_SplitAfter_total (path : GoString) (c : Char) :
    ∃ ps, sliceTo (SplitAfter path c) (((SplitAfter path c).length : Int) - 1)
      = .returned ps := by
  obtain ⟨init, last, hL, -, -, -⟩ := SplitAfter_shape path c
  refine ⟨init, ?_⟩
  rw [hL]
  have hlen : (((init ++ [last]).length : Int) - 1) = (init.length : Int) := by simp
  rw [hlen]
  simp [sliceTo]

theorem Contains_of_isPrefixOf (s sub : GoString) (h : sub.isPrefixOf s = true) :
    Contains s sub = true := by
  cases s with
  | nil =>
    cases sub with
    | nil => rfl
    | cons y ys => simp [List.isPrefixOf] at h
  | cons x xs => simp [Contains, h]

theorem dropWhile_all {α : Type} (p : α → Bool) (l : List α) (h : ∀ x ∈ l, p x = true) :
    l.dropWhile p = [] := by
  induction l with
  | nil => rfl
  | cons x xs ih =>
    have hx := h x (by simp)
    simp [List.dropWhile, hx, ih (fun y hy => h y (by simp [hy]))]

theorem dropWhile_append_all {α : Type} (p : α → Bool) (l r : List α)
    (h : ∀ x ∈ l, p x = true) : (l ++ r).dropWhile p = r.dropWhile p := by
  induction l with
  | nil => rfl
  | cons x xs ih =>
    have hx := h x (by simp)
    simp [List.dropWhile, hx, ih (fun y hy => h y (by simp [hy]))]

theorem TrimSpace_all_space (s : GoString) (h : ∀ c ∈ s, isSpace c = true) :
    TrimSpace s = [] := by
  simp [TrimSpace, dropWhile_all isSpace s h]

/-- Trimming removes the white space around a text that neither starts nor ends with
white space. -/
theorem TrimSpace_padded (ws2 ws3 body : GoString)
    (h2 : ∀ c ∈ ws2, isSpace c = true) (h3 : ∀ c ∈ ws3, isSpace c = true)
    (hne : body ≠ []) (hbody : ∀ c ∈ body, isSpace c = false) :
    TrimSpace (ws2 ++ body ++ ws3) = body := by
  have hr : ∀ c ∈ ws3.reverse, isSpace c = true := fun c hc => h3 c (List.mem_reverse.1 hc)
  have hn : ∀ c ∈ body, ¬ (isSpace c = true) := fun c hc => by simp [hbody c hc]
  obtain ⟨a, tl, hcons⟩ := List.exists_cons_of_ne_nil hne
  have hrev : body.reverse ≠ [] := by simpa using hne
  obtain ⟨z, rtl, hrcons⟩ := List.exists_cons_of_ne_nil hrev
  have ha : a ∈ body := by simp [hcons]
  have hz : z ∈ body := List.mem_reverse.1 (by simp [hrcons])
  unfold TrimSpace
  rw [List.append_assoc, dropWhile_append_all isSpace _ _ h2]
  have e0 : List.dropWhile isSpace (body ++ ws3) = body ++ ws3 := by
    rw [hcons, List.cons_append, List.dropWhile_cons_of_neg (hn a ha)]
  rw [e0, List.reverse_append, dropWhile_append_all isSpace _ _ hr, hrcons,
    List.dropWhile_cons_of_neg (hn z hz), ← hrcons, List.reverse_reverse]

theorem isSpace_of_ascii_graphic :
    isSpace '=' = false ∧ isSpace ':' = false ∧ isSpace '/' = false := by
  decide

/-! ## Facts about the scan loops -/

theorem readRolesPathScan_skip (pfx : GoString) (scanErr : Bool) (pre rest : List GoString)
    (hpre : ∀ l ∈ pre, Contains l "roles_path".toList = false) :
    main.readRolesPathScan pfx scanErr (pre ++ rest) = main.readRolesPathScan pfx scanErr rest := by
  induction pre with
  | nil => rfl
  | cons l ls ih =>
    have hl := hpre l (by simp)
    rw [List.cons_append, main.readRolesPathScan]
    simp only [hl, Bool.false_eq_true, if_false]
    exact ih (fun y hy => hpre y (by simp [hy]))

theorem ReadRolesPathScan_skip (pfx dp : GoString) (scanErr : Bool) (pre rest : List GoString)
    (hpre : ∀ l ∈ pre, Contains l "roles_path".toList = false) :
    commands.ReadRolesPathScan pfx dp scanErr (pre ++ rest)
      = commands.ReadRolesPathScan pfx dp scanErr rest := by
  induction pre with
  | nil => rfl
  | cons l ls ih =>
    have hl := hpre l (by simp)
    rw [List.cons_append, commands.ReadRolesPathScan]
    simp only [hl, Bool.false_eq_true, if_false]
    exact ih (fun y hy => hpre y (by simp [hy]))

/-- Once the file is open, `readRolesPath` is its scan loop run with the directory of
the path. -/
theorem readRolesPath_opened (w : World) (path d f : GoString) (file : FileScan)
    (hopen : w.openFile path = some file) (hp : path = d ++ f) (hf : '/' ∉ f)
    (hd : d = [] ∨ d.getLast? = some '/') :
    main.readRolesPath w path = main.readRolesPathScan d file.scanErr file.lines := by
  obtain ⟨ps, hs, hj⟩ := dir_of_path path d f hp hf hd
  simp only [main.readRolesPath, hopen, hs, hj]

/-- `ReadRolesPathFrom` is its scan loop run with the directory of the path. -/
theorem ReadRolesPathFrom_dir (path d f : GoString) (file : FileScan)
    (hp : path = d ++ f) (hf : '/' ∉ f) (hd : d = [] ∨ d.getLast? = some '/') :
    commands.ReadRolesPathFrom path file
      = commands.ReadRolesPathScan d (d ++ "roles".toList) file.scanErr file.lines := by
  obtain ⟨ps, hs, hj⟩ := dir_of_path path d f hp hf hd
  simp only [commands.ReadRolesPathFrom, hs, hj, commands.Concat]

/-- Once the configuration file is located and open, `ReadRolesPath` is
`ReadRolesPathFrom`. -/
theorem ReadRolesPath_opened (command : commands.Command) (w : World) (path : GoString)
    (file : FileScan) (hcfg : commands.ansibleConfigPath command w = (path, none))
    (hopen : w.openFile path = some file) :
    commands.ReadRolesPath command w = commands.ReadRolesPathFrom path file := by
  simp only [commands.ReadRolesPath, hcfg, hopen]

/-! ## Configuration lookup -/

/-- C1: with the value of `ANSIBLE_CONFIG` and the existence check as inputs, both
`ansibleConfigPath` functions return a non-empty environment value as it is, whatever
exists; for an empty value the first existing one of `./ansible.cfg`, `./.ansible.cfg`,
`/etc/ansible/ansible.cfg`; and an error with the empty path exactly when the value is
empty and none of the three exists. -/
theorem C1_config_location (command : commands.Command) (w : World) :
    LocatesConfig (w.getenv "ANSIBLE_CONFIG".toList) w.stat (main.ansibleConfigPath w) ∧
    LocatesConfig (w.getenv "ANSIBLE_CONFIG".toList) w.stat
      (commands.ansibleConfigPath command w) := by
  have key : LocatesConfig (w.getenv "ANSIBLE_CONFIG".toList) w.stat
      (main.ansibleConfigPath w) := by
    unfold LocatesConfig main.ansibleConfigPath
    generalize w.getenv "ANSIBLE_CONFIG".toList = e
    generalize w.stat "./ansible.cfg".toList = a
    generalize w.stat "./.ansible.cfg".toList = b
    generalize w.stat "/etc/ansible/ansible.cfg".toList = c
    by_cases he : e = [] <;> cases a <;> cases b <;> cases c <;> simp [he]
  exact ⟨key, key⟩

/-- C1, at an environment value `/tmp/custom.cfg` while `./ansible.cfg` exists too. -/
theorem C1_config_location_witness :
    main.ansibleConfigPath worldWithEnv = ("/tmp/custom.cfg".toList, none) ∧
    commands.ansibleConfigPath plainCommand worldWithEnv = ("/tmp/custom.cfg".toList, none) :=
  ⟨(C1_config_location plainCommand worldWithEnv).1.1 (by decide),
   (C1_config_location plainCommand worldWithEnv).2.1 (by decide)⟩

/-! ## Folder selection -/

/-- C6: `SelectFolders` returns the seven folder names filtered by `keeps`: `tasks`
always and first, each other name iff its flag is set, in the fixed order, without
duplicates, `1 +` the number of set flags in all. -/
theorem C6_select_folders (command : commands.Command) :
    commands.SelectFolders command = sevenFolders.filter (keeps command) ∧
    (commands.SelectFolders command).head? = some "tasks".toList ∧
    List.Sublist (commands.SelectFolders command) sevenFolders ∧
    (commands.SelectFolders command).Nodup ∧
    (commands.SelectFolders command).length = 1 + flagCount command ∧
    (∀ name all, commands.SelectFolders ⟨name, false, false, false, false, false, false, all⟩
      = ["tasks".toList]) ∧
    (∀ name all, commands.SelectFolders ⟨name, true, true, true, true, true, true, all⟩
      = sevenFolders) := by
  obtain ⟨n, h, t, f, v, d, m, a⟩ := command
  have e1 : commands.SelectFolders ⟨n, h, t, f, v, d, m, a⟩
      = commands.SelectFolders ⟨[], h, t, f, v, d, m, false⟩ := rfl
  have e2 : keeps ⟨n, h, t, f, v, d, m, a⟩ = keeps ⟨[], h, t, f, v, d, m, false⟩ := rfl
  have e3 : flagCount ⟨n, h, t, f, v, d, m, a⟩ = flagCount ⟨[], h, t, f, v, d, m, false⟩ := rfl
  rw [e1, e2, e3]
  refine ⟨?_, ?_, ?_, ?_, ?_, fun _ _ => rfl, fun _ _ => rfl⟩ <;>
    cases h <;> cases t <;> cases f <;> cases v <;> cases d <;> cases m <;> decide

/-- C10: two commands that agree on the six `With*` flags select the same folders,
whatever their `All` flag and `PlaybookName`; with `All` set and no `With*` flag set the
selection is `tasks` alone. -/
theorem C10_all_flag_ignored (c1 c2 : commands.Command)
    (hh : c1.WithHandlers = c2.WithHandlers) (ht : c1.WithTemplates = c2.WithTemplates)
    (hf : c1.WithFiles = c2.WithFiles) (hv : c1.WithVars = c2.WithVars)
    (hd : c1.WithDefaults = c2.WithDefaults) (hm : c1.WithMeta = c2.WithMeta) :
    commands.SelectFolders c1 = commands.SelectFolders c2 ∧
    ∀ name, commands.SelectFolders ⟨name, false, false, false, false, false, false, true⟩
      = ["tasks".toList] := by
  refine ⟨?_, fun _ => rfl⟩
  simp only [commands.SelectFolders, hh, ht, hf, hv, hd, hm]

/-- C10, at a command with `All` set and a command with another name and `All` unset. -/
theorem C10_all_flag_ignored_witness :
    commands.SelectFolders ⟨"a".toList, false, true, false, false, false, false, true⟩
      = commands.SelectFolders ⟨"b".toList, false, true, false, false, false, false, false⟩ ∧
    ∀ name, commands.SelectFolders ⟨name, false, false, false, false, false, false, true⟩
      = ["tasks".toList] :=
  C10_all_flag_ignored ⟨"a".toList, false, true, false, false, false, false, true⟩
    ⟨"b".toList, false, true, false, false, false, false, false⟩ rfl rfl rfl rfl rfl rfl

/-! ## Roles-path resolution -/

theorem Split_colonList (p : GoString) (ps : List GoString)
    (h : ∀ q ∈ p :: ps, ':' ∉ q) : Split (colonList p ps) ':' = p :: ps := by
  induction ps generalizing p with
  | nil => exact Split_of_not_mem p ':' (h p (by simp))
  | cons q qs ih =>
    have hp : ':' ∉ p := h p (by simp)
    rw [colonList, Split_append_sep p _ ':' hp, ih q (fun r hr => h r (by simp [hr]))]

theorem colonList_ne_nil (p : GoString) (ps : List GoString) (hp : p ≠ []) :
    colonList p ps ≠ [] := by
  cases ps with
  | nil => exact hp
  | cons q qs => simp [colonList, hp]

theorem mem_colonList (p : GoString) (ps : List GoString) (c : Char)
    (hc : c ∈ colonList p ps) : c = ':' ∨ ∃ q ∈ p :: ps, c ∈ q := by
  induction ps generalizing p with
  | nil => exact Or.inr ⟨p, by simp, hc⟩
  | cons q qs ih =>
    rw [colonList, List.mem_append, List.mem_cons] at hc
    rcases hc with h | h | h
    · exact Or.inr ⟨p, by simp, h⟩
    · exact Or.inl h
    · rcases ih q h with h1 | ⟨r, hr, hcr⟩
      · exact Or.inl h1
      · exact Or.inr ⟨r, by simp [List.mem_cons.1 hr], hcr⟩

/-- C2: when no line of the configuration file contains `roles_path` and the scan ends
without an error, both resolvers return, with no error, `d ++ "roles"`, where `d` is the
longest part of the configuration path that ends with `/` (empty when it holds no `/`);
and the slice that computes `d` is in range for every path. -/
theorem C2_default_roles_path (command : commands.Command) (w : World)
    (path d f : GoString) (file : FileScan)
    (hopen : w.openFile path = some file) (herr : file.scanErr = false)
    (hlines : ∀ l ∈ file.lines, Contains l "roles_path".toList = false)
    (hp : path = d ++ f) (hf : '/' ∉ f) (hd : d = [] ∨ d.getLast? = some '/') :
    main.readRolesPath w path = .returned (d ++ "roles".toList, none) ∧
    commands.ReadRolesPathFrom path file = .returned (d ++ "roles".toList, none) ∧
    (commands.ansibleConfigPath command w = (path, none) →
      commands.ReadRolesPath command w = .returned (d ++ "roles".toList, none)) ∧
    (∀ p : GoString, ∃ ps,
      sliceTo (SplitAfter p '/') (((SplitAfter p '/').length : Int) - 1) = .returned ps) := by
  have h1 := readRolesPathScan_skip d file.scanErr file.lines [] hlines
  have h2 := ReadRolesPathScan_skip d (d ++ "roles".toList) file.scanErr file.lines [] hlines
  rw [List.append_nil] at h1 h2
  have hfrom : commands.ReadRolesPathFrom path file = .returned (d ++ "roles".toList, none) := by
    rw [ReadRolesPathFrom_dir path d f file hp hf hd, h2, herr]
    rfl
  refine ⟨?_, hfrom, ?_, fun p => sliceTo_SplitAfter_total p '/'⟩
  · rw [readRolesPath_opened w path d f file hopen hp hf hd, h1, herr]
    rfl
  · intro hcfg
    rw [ReadRolesPath_opened command w path file hcfg hopen, hfrom]

/-- C2, at the configuration file `./ansible.cfg` with the single line `[defaults]`. -/
theorem C2_default_roles_path_witness :
    main.readRolesPath (worldWithFile "./ansible.cfg".toList ["[defaults]".toList])
        "./ansible.cfg".toList = .returned ("./roles".toList, none) ∧
    commands.ReadRolesPath plainCommand
        (worldWithFile "./ansible.cfg".toList ["[defaults]".toList])
      = .returned ("./roles".toList, none) :=
  have h := C2_default_roles_path plainCommand
    (worldWithFile "./ansible.cfg".toList ["[defaults]".toList])
    "./ansible.cfg".toList "./".toList "ansible.cfg".toList ⟨["[defaults]".toList], false⟩
    (by decide) rfl (by decide) (by decide) (by decide) (by decide)
  ⟨h.1, h.2.2.1 (by decide)⟩

/-- The value that `availableRolesPath` finds on a line
`roles_path ws1 = ws2 p1:p2:... ws3` is the list of its entries. -/
theorem availableRolesPath_entries (ws1 ws2 ws3 p1 : GoString) (ps : List GoString)
    (hws : ∀ c ∈ ws1 ++ ws2 ++ ws3, isSpace c = true)
    (hps : ∀ q ∈ p1 :: ps, q ≠ [] ∧ ∀ c ∈ q, c ≠ '=' ∧ c ≠ ':' ∧ isSpace c = false) :
    commands.availableRolesPath
      ("roles_path".toList ++ ws1 ++ '=' :: (ws2 ++ colonList p1 ps ++ ws3))
      = .returned (p1 :: ps) ∧
    index (Split ("roles_path".toList ++ ws1 ++ '=' :: (ws2 ++ colonList p1 ps ++ ws3)) '=') 1
      = .returned (ws2 ++ colonList p1 ps ++ ws3) ∧
    TrimSpace (ws2 ++ colonList p1 ps ++ ws3) = colonList p1 ps := by
  obtain ⟨hEq, hCol, hSl⟩ := isSpace_of_ascii_graphic
  have hwsEq : ∀ ws : GoString, (∀ c ∈ ws, isSpace c = true) → '=' ∉ ws := by
    intro ws h hmem
    have := h _ hmem
    rw [hEq] at this
    exact Bool.false_ne_true this
  have h1 : ∀ c ∈ ws1, isSpace c = true := fun c hc => hws c (by simp [hc])
  have h2 : ∀ c ∈ ws2, isSpace c = true := fun c hc => hws c (by simp [hc])
  have h3 : ∀ c ∈ ws3, isSpace c = true := fun c hc => hws c (by simp [hc])
  have hbodyEq : '=' ∉ colonList p1 ps := by
    intro hmem
    rcases mem_colonList p1 ps _ hmem with h | ⟨q, hq, hcq⟩
    · exact absurd h (by decide)
    · exact ((hps q hq).2 _ hcq).1 rfl
  have hbodySp : ∀ c ∈ colonList p1 ps, isSpace c = false := by
    intro c hmem
    rcases mem_colonList p1 ps _ hmem with h | ⟨q, hq, hcq⟩
    · rw [h]; exact hCol
    · exact ((hps q hq).2 _ hcq).2.2
  have hkey : '=' ∉ "roles_path".toList ++ ws1 := by
    intro hmem
    rcases List.mem_append.1 hmem with h | h
    · exact absurd h (by decide)
    · exact hwsEq ws1 h1 h
  have hval : '=' ∉ ws2 ++ colonList p1 ps ++ ws3 := by
    intro hmem
    rcases List.mem_append.1 hmem with h | h
    · rcases List.mem_append.1 h with h | h
      · exact hwsEq ws2 h2 h
      · exact hbodyEq h
    · exact hwsEq ws3 h3 h
  have hsplit : index (Split ("roles_path".toList ++ ws1 ++ '=' ::
      (ws2 ++ colonList p1 ps ++ ws3)) '=') 1 = .returned (ws2 ++ colonList p1 ps ++ ws3) := by
    rw [Split_append_sep _ _ '=' hkey, Split_of_not_mem _ '=' hval, index_one_cons]
  have htrim : TrimSpace (ws2 ++ colonList p1 ps ++ ws3) = colonList p1 ps :=
    TrimSpace_padded ws2 ws3 _ h2 h3 (colonList_ne_nil p1 ps (hps p1 (by simp)).1) hbodySp
  refine ⟨?_, hsplit, htrim⟩
  unfold commands.availableRolesPath
  rw [hsplit]
  simp only [htrim]
  have hlen : (colonList p1 ps).length ≠ 0 := by
    intro h0
    exact colonList_ne_nil p1 ps (hps p1 (by simp)).1 (List.length_eq_zero.1 h0)
  rw [if_neg hlen, Split_colonList p1 ps (fun q hq hc => ((hps q hq).2 _ hc).2.1 rfl)]

/-- C3: when the first line that contains `roles_path` reads
`roles_path ws1 = ws2 p1:p2:... ws3`, with white space `ws1`, `ws2`, `ws3` and non-empty
entries free of `=`, `:` and white space, `Command.ReadRolesPath` returns `d ++ p1` with
no error, whatever the further entries and the later lines are. -/
theorem C3_first_entry_used (command : commands.Command) (w : World)
    (path d f : GoString) (file : FileScan) (pre post : List GoString)
    (ws1 ws2 ws3 p1 : GoString) (ps : List GoString)
    (hcfg : commands.ansibleConfigPath command w = (path, none))
    (hopen : w.openFile path = some file)
    (hp : path = d ++ f) (hf : '/' ∉ f) (hd : d = [] ∨ d.getLast? = some '/')
    (hlines : file.lines = pre ++
      ("roles_path".toList ++ ws1 ++ '=' :: (ws2 ++ colonList p1 ps ++ ws3)) :: post)
    (hpre : ∀ l ∈ pre, Contains l "roles_path".toList = false)
    (hws : ∀ c ∈ ws1 ++ ws2 ++ ws3, isSpace c = true)
    (hps : ∀ q ∈ p1 :: ps, q ≠ [] ∧ ∀ c ∈ q, c ≠ '=' ∧ c ≠ ':' ∧ isSpace c = false) :
    commands.ReadRolesPath command w = .returned (d ++ p1, none) := by
  have hav := (availableRolesPath_entries ws1 ws2 ws3 p1 ps hws hps).1
  have hcont : Contains
      ("roles_path".toList ++ ws1 ++ '=' :: (ws2 ++ colonList p1 ps ++ ws3))
      "roles_path".toList = true := by
    apply Contains_of_isPrefixOf
    rw [List.append_assoc]
    exact List.isPrefixOf_iff_prefix.2 (List.prefix_append _ _)
  rw [ReadRolesPath_opened command w path file hcfg hopen,
    ReadRolesPathFrom_dir path d f file hp hf hd, hlines,
    ReadRolesPathScan_skip _ _ _ pre _ hpre, commands.ReadRolesPathScan]
  simp only [hcont, if_true, hav]
  simp [index_zero_cons, commands.Concat]

/-- C3, at `./ansible.cfg` holding `[defaults]` and `roles_path = /a/b:/c/d`. -/
theorem C3_first_entry_used_witness :
    commands.ReadRolesPath plainCommand
      (worldWithFile "./ansible.cfg".toList
        ["[defaults]".toList, "roles_path = /a/b:/c/d".toList, "roles_path = /x".toList])
      = .returned ("./".toList ++ "/a/b".toList, none) :=
  C3_first_entry_used plainCommand
    (worldWithFile "./ansible.cfg".toList
      ["[defaults]".toList, "roles_path = /a/b:/c/d".toList, "roles_path = /x".toList])
    "./ansible.cfg".toList "./".toList "ansible.cfg".toList
    ⟨["[defaults]".toList, "roles_path = /a/b:/c/d".toList, "roles_path = /x".toList], false⟩
    ["[defaults]".toList] ["roles_path = /x".toList]
    " ".toList " ".toList [] "/a/b".toList ["/c/d".toList]
    (by decide) (by decide) (by decide) (by decide) (by decide) (by decide) (by decide)
    (by decide) (by decide)

/-- What `availableRolesPath` returns on a line whose first `=` is followed by white
space only, up to the next `=` or the end of the line. -/
theorem availableRolesPath_blank (a ws rest : GoString) (ha : '=' ∉ a)
    (hws : ∀ c ∈ ws, isSpace c = true) (hrest : rest = [] ∨ rest.head? = some '=') :
    commands.availableRolesPath (a ++ '=' :: (ws ++ rest)) = .returned [] := by
  have hwsEq : '=' ∉ ws := by
    intro hmem
    have := hws _ hmem
    rw [isSpace_of_ascii_graphic.1] at this
    exact Bool.false_ne_true this
  have hidx : index (Split (a ++ '=' :: (ws ++ rest)) '=') 1 = .returned ws := by
    rw [Split_append_sep a _ '=' ha]
    rcases hrest with h | h
    · rw [h, List.append_nil, Split_of_not_mem ws '=' hwsEq, index_one_cons]
    · cases rest with
      | nil => simp at h
      | cons x xs =>
        have hx : x = '=' := by simpa using h
        rw [hx, Split_append_sep ws xs '=' hwsEq]
        obtain ⟨y, ys, hy⟩ := List.exists_cons_of_ne_nil (Split_ne_nil xs '=')
        rw [index_one_cons]
  unfold commands.availableRolesPath
  rw [hidx]
  simp [TrimSpace_all_space ws hws]

/-- C4: when the first line that contains `roles_path` has only white space (or nothing)
between its first `=` and the next `=` or the end of the line, `availableRolesPath`
returns the empty list on it, not a list holding an empty string, and
`Command.ReadRolesPath` returns `d ++ "roles"` with no error. -/
theorem C4_empty_value_default (command : commands.Command) (w : World)
    (path d f : GoString) (file : FileScan) (pre post : List GoString)
    (a ws rest : GoString)
    (hcfg : commands.ansibleConfigPath command w = (path, none))
    (hopen : w.openFile path = some file)
    (hp : path = d ++ f) (hf : '/' ∉ f) (hd : d = [] ∨ d.getLast? = some '/')
    (hlines : file.lines = pre ++ (a ++ '=' :: (ws ++ rest)) :: post)
    (hpre : ∀ l ∈ pre, Contains l "roles_path".toList = false)
    (hkey : Contains (a ++ '=' :: (ws ++ rest)) "roles_path".toList = true)
    (ha : '=' ∉ a) (hws : ∀ c ∈ ws, isSpace c = true)
    (hrest : rest = [] ∨ rest.head? = some '=') :
    commands.ReadRolesPath command w = .returned (d ++ "roles".toList, none) ∧
    commands.availableRolesPath (a ++ '=' :: (ws ++ rest)) = .returned [] ∧
    ∀ r, commands.availableRolesPath (a ++ '=' :: (ws ++ rest)) = .returned r → [] ∉ r := by
  have hav := availableRolesPath_blank a ws rest ha hws hrest
  refine ⟨?_, hav, ?_⟩
  · rw [ReadRolesPath_opened command w path file hcfg hopen,
      ReadRolesPathFrom_dir path d f file hp hf hd, hlines,
      ReadRolesPathScan_skip _ _ _ pre _ hpre, commands.ReadRolesPathScan]
    simp only [hkey, if_true, hav]
    rfl
  · intro r hr
    rw [hav] at hr
    cases hr
    simp

/-- C4, at `./ansible.cfg` holding `[defaults]` and `roles_path = `. -/
theorem C4_empty_value_default_witness :
    commands.ReadRolesPath plainCommand
      (worldWithFile "./ansible.cfg".toList ["[defaults]".toList, "roles_path = ".toList])
      = .returned ("./".toList ++ "roles".toList, none) ∧
    commands.availableRolesPath ("roles_path ".toList ++ '=' :: (" ".toList ++ []))
      = .returned [] :=
  have h := C4_empty_value_default plainCommand
    (worldWithFile "./ansible.cfg".toList ["[defaults]".toList, "roles_path = ".toList])
    "./ansible.cfg".toList "./".toList "ansible.cfg".toList
    ⟨["[defaults]".toList, "roles_path = ".toList], false⟩
    ["[defaults]".toList] [] "roles_path ".toList " ".toList []
    (by decide) (by decide) (by decide) (by decide) (by decide) (by decide) (by decide)
    (by decide) (by decide) (by decide) (by decide)
  ⟨h.1, h.2.1⟩

/-- On a line with a non-blank value an empty entry is kept: `roles_path = a::b` gives
the entries `a`, the empty string and `b`. -/
theorem availableRolesPath_double_colon :
    commands.availableRolesPath "roles_path = a::b".toList
      = .returned ["a".toList, [], "b".toList] := by
  decide

/-- On a line without any `=` the index `[1]` of `availableRolesPath` is out of range. -/
theorem availableRolesPath_no_equals (line : GoString) (h : '=' ∉ line) :
    commands.availableRolesPath line = .panicked := by
  unfold commands.availableRolesPath
  rw [Split_of_not_mem line '=' h, index_one_singleton]

/-- C5: on a configuration file whose first line containing `roles_path` is the comment
`# set roles_path here`, which has no `=`, `availableRolesPath` and with it
`Command.ReadRolesPath` panic instead of returning the default path. -/
theorem C5_comment_line_panics :
    commands.availableRolesPath "# set roles_path here".toList = .panicked ∧
    commands.ReadRolesPath plainCommand
      (worldWithFile "./ansible.cfg".toList ["# set roles_path here".toList]) = .panicked := by
  decide

/-- What `readRolesPath` of `main.go` returns on a line
`roles_path ws1 = ws2 p1:p2:... ws3`: the directory followed by the whole value. -/
theorem readRolesPath_whole_value (w : World) (path d f : GoString) (file : FileScan)
    (pre post : List GoString) (ws1 ws2 ws3 p1 : GoString) (ps : List GoString)
    (hopen : w.openFile path = some file)
    (hp : path = d ++ f) (hf : '/' ∉ f) (hd : d = [] ∨ d.getLast? = some '/')
    (hlines : file.lines = pre ++
      ("roles_path".toList ++ ws1 ++ '=' :: (ws2 ++ colonList p1 ps ++ ws3)) :: post)
    (hpre : ∀ l ∈ pre, Contains l "roles_path".toList = false)
    (hws : ∀ c ∈ ws1 ++ ws2 ++ ws3, isSpace c = true)
    (hps : ∀ q ∈ p1 :: ps, q ≠ [] ∧ ∀ c ∈ q, c ≠ '=' ∧ c ≠ ':' ∧ isSpace c = false) :
    main.readRolesPath w path = .returned (d ++ colonList p1 ps, none) := by
  obtain ⟨-, hidx, htrim⟩ := availableRolesPath_entries ws1 ws2 ws3 p1 ps hws hps
  have hcont : Contains
      ("roles_path".toList ++ ws1 ++ '=' :: (ws2 ++ colonList p1 ps ++ ws3))
      "roles_path".toList = true := by
    apply Contains_of_isPrefixOf
    rw [List.append_assoc]
    exact List.isPrefixOf_iff_prefix.2 (List.prefix_append _ _)
  rw [readRolesPath_opened w path d f file hopen hp hf hd, hlines,
    readRolesPathScan_skip _ _ pre _ hpre, main.readRolesPathScan]
  simp only [hcont, if_true, hidx, htrim, main.concat]

/-- C8: on `./ansible.cfg` holding `roles_path = /a/b:/c/d`, `readRolesPath` of
`main.go` returns the directory followed by the whole value `/a/b:/c/d`, not by its
first entry `/a/b`. -/
theorem C8_legacy_keeps_all_entries :
    main.readRolesPath
      (worldWithFile "./ansible.cfg".toList ["roles_path = /a/b:/c/d".toList])
      "./ansible.cfg".toList = .returned (".//a/b:/c/d".toList, none) ∧
    main.readRolesPath
      (worldWithFile "./ansible.cfg".toList ["roles_path = /a/b:/c/d".toList])
      "./ansible.cfg".toList ≠ .returned ("./".toList ++ "/a/b".toList, none) := by
  decide

/-! ## Playbook structure -/

theorem index_last_of_ne_nil (s : GoString) (hs : s ≠ []) :
    ∃ c, index s ((s.length : Int) - 1) = .returned c ∧ s.getLast? = some c := by
  obtain ⟨l, x, rfl⟩ : ∃ l x, s = l ++ [x] :=
    ⟨s.dropLast, s.getLast hs, (List.dropLast_append_getLast hs).symm⟩
  exact ⟨x, index_last l x, by simp⟩

/-- For a non-empty `rolesPath` both byte indexes are in range and the computed root is
the normalised one. -/
theorem playbookRoot_of_ne_nil (rolesPath name : GoString) (h : rolesPath ≠ []) :
    main.playbookRoot rolesPath name = .returned (normalisedRoot rolesPath name) := by
  obtain ⟨c, hc, hlast⟩ := index_last_of_ne_nil rolesPath h
  unfold main.playbookRoot normalisedRoot
  rw [hc]
  simp only [main.concat, hlast, Option.some.injEq, ne_eq, ite_not]
  have hne : (if c = '/' then rolesPath else rolesPath ++ "/".toList) ++ name ≠ [] := by
    split <;> simp [h]
  obtain ⟨c2, hc2, hlast2⟩ := index_last_of_ne_nil _ hne
  rw [hc2]
  simp only [hlast2, Option.some.injEq]

/-- C7: for a non-empty `rolesPath`, `createPlaybookStructure` requests, under the
normalised root and nowhere else, the seven directories in their order with mode 0755,
and a `main.yml` in each of them except `templates` and `files`. -/
theorem C7_structure_requests (rolesPath name : GoString) (h : rolesPath ≠ []) :
    main.createPlaybookStructure rolesPath name = .returned
      [.MkdirAll (normalisedRoot rolesPath name ++ "tasks".toList) 0o755,
       .Create (normalisedRoot rolesPath name ++ "tasks".toList ++ "/main.yml".toList),
       .MkdirAll (normalisedRoot rolesPath name ++ "handlers".toList) 0o755,
       .Create (normalisedRoot rolesPath name ++ "handlers".toList ++ "/main.yml".toList),
       .MkdirAll (normalisedRoot rolesPath name ++ "templates".toList) 0o755,
       .MkdirAll (normalisedRoot rolesPath name ++ "files".toList) 0o755,
       .MkdirAll (normalisedRoot rolesPath name ++ "vars".toList) 0o755,
       .Create (normalisedRoot rolesPath name ++ "vars".toList ++ "/main.yml".toList),
       .MkdirAll (normalisedRoot rolesPath name ++ "defaults".toList) 0o755,
       .Create (normalisedRoot rolesPath name ++ "defaults".toList ++ "/main.yml".toList),
       .MkdirAll (normalisedRoot rolesPath name ++ "meta".toList) 0o755,
       .Create (normalisedRoot rolesPath name ++ "meta".toList ++ "/main.yml".toList)] ∧
    ∃ reqs, main.createPlaybookStructure rolesPath name = .returned reqs ∧
      mkdirRequests reqs
        = sevenFolders.map (fun folder => (normalisedRoot rolesPath name ++ folder, 0o755)) ∧
      createRequests reqs
        = ["tasks".toList, "handlers".toList, "vars".toList, "defaults".toList, "meta".toList].map
            (fun folder => normalisedRoot rolesPath name ++ folder ++ "/main.yml".toList) ∧
      ∀ r ∈ reqs, normalisedRoot rolesPath name <+: r.path := by
  have hrun : main.createPlaybookStructure rolesPath name
      = .returned (main.createFolders (normalisedRoot rolesPath name) main.folders) := by
    unfold main.createPlaybookStructure
    rw [playbookRoot_of_ne_nil rolesPath name h]
  generalize normalisedRoot rolesPath name = root at hrun ⊢
  refine ⟨hrun.trans rfl, _, hrun, rfl, rfl, ?_⟩
  intro r hr
  have hall : main.createFolders root main.folders =
      [.MkdirAll (root ++ "tasks".toList) 0o755,
       .Create (root ++ "tasks".toList ++ "/main.yml".toList),
       .MkdirAll (root ++ "handlers".toList) 0o755,
       .Create (root ++ "handlers".toList ++ "/main.yml".toList),
       .MkdirAll (root ++ "templates".toList) 0o755,
       .MkdirAll (root ++ "files".toList) 0o755,
       .MkdirAll (root ++ "vars".toList) 0o755,
       .Create (root ++ "vars".toList ++ "/main.yml".toList),
       .MkdirAll (root ++ "defaults".toList) 0o755,
       .Create (root ++ "defaults".toList ++ "/main.yml".toList),
       .MkdirAll (root ++ "meta".toList) 0o755,
       .Create (root ++ "meta".toList ++ "/main.yml".toList)] := rfl
  rw [hall] at hr
  simp only [List.mem_cons, List.mem_singleton, List.not_mem_nil, or_false] at hr
  rcases hr with rfl | rfl | rfl | rfl | rfl | rfl | rfl | rfl | rfl | rfl | rfl | rfl <;>
    simp only [FsRequest.path, List.append_assoc] <;> exact List.prefix_append _ _

/-- C7, at `rolesPath = "roles/"` and the name `demo`. -/
theorem C7_structure_requests_witness :
    main.createPlaybookStructure "roles/".toList "demo".toList = .returned
      [.MkdirAll "roles/demo/tasks".toList 0o755,
       .Create "roles/demo/tasks/main.yml".toList,
       .MkdirAll "roles/demo/handlers".toList 0o755,
       .Create "roles/demo/handlers/main.yml".toList,
       .MkdirAll "roles/demo/templates".toList 0o755,
       .MkdirAll "roles/demo/files".toList 0o755,
       .MkdirAll "roles/demo/vars".toList 0o755,
       .Create "roles/demo/vars/main.yml".toList,
       .MkdirAll "roles/demo/defaults".toList 0o755,
       .Create "roles/demo/defaults/main.yml".toList,
       .MkdirAll "roles/demo/meta".toList 0o755,
       .Create "roles/demo/meta/main.yml".toList] :=
  (C7_structure_requests "roles/".toList "demo".toList (by decide)).1

/-- C9: for the empty `rolesPath` the byte index `rolesPath[len(rolesPath)-1]` is out of
range, so that `createPlaybookStructure` panics; `main` reaches this when no
configuration file is found, as it passes on the empty roles path. -/
theorem C9_empty_roles_path_panics :
    index ([] : GoString) ((([] : GoString).length : Int) - 1) = .panicked ∧
    (∀ name, main.createPlaybookStructure [] name = .panicked) ∧
    main.readRolesPath emptyWorld (main.ansibleConfigPath emptyWorld).1
      = .returned ([], some "Cannot open Ansible configuration file".toList) ∧
    main.main emptyWorld = .panicked := by
  refine ⟨by decide, fun _ => rfl, by decide, by decide⟩

end Playwright
